import Mathlib

/-!
Verification development for the rednote resolver and download proxy server
(`src/server.js`).  The server's pure request-handling logic is shallowly
embedded: strings are `List Char`, each HTTP handler is a total function from
its query parameters and the outcome of its outbound fetches to a response
record, and the JavaScript regular expressions used for extraction are
hand-compiled into deterministic matchers with the same backtracking
semantics on the pattern fragments they use.
-/

set_option maxRecDepth 100000

namespace Rednote

/-- ASCII lower-casing, modelling `String.prototype.toLowerCase` and the
case-insensitive `i` regex flag of the source for ASCII input. -/
def lc (c : Char) : Char :=
  if 'A' ≤ c ∧ c ≤ 'Z' then Char.ofNat (c.toNat + 32) else c

/-- The single-quote character, written by code point. -/
def squote : Char := Char.ofNat 39

/-- The double-quote character. -/
def dquote : Char := Char.ofNat 34

/-- The backslash character. -/
def bslash : Char := Char.ofNat 92

/-- JavaScript `\s` (whitespace class), restricted to the code points the
model cares about (ASCII whitespace plus NBSP/BOM and the two Unicode line
separators). -/
def isJsSpace (c : Char) : Bool :=
  c = ' ' ∨ c = Char.ofNat 9 ∨ c = Char.ofNat 10 ∨ c = Char.ofNat 11 ∨
  c = Char.ofNat 12 ∨ c = Char.ofNat 13 ∨ c = Char.ofNat 160 ∨
  c = Char.ofNat 0x2028 ∨ c = Char.ofNat 0x2029 ∨ c = Char.ofNat 0xfeff

/-- Case-insensitive prefix test: `pat` is given lower-cased and is compared
against the lower-casing of `s`. -/
def startsWithCI : List Char → List Char → Bool
  | [], _ => true
  | _ :: _, [] => false
  | p :: ps, c :: cs => if lc c = p then startsWithCI ps cs else false

/-- Exact prefix test. -/
def startsWithChars : List Char → List Char → Bool
  | [], _ => true
  | _ :: _, [] => false
  | p :: ps, c :: cs => if c = p then startsWithChars ps cs else false

/-- Substring containment (`String.prototype.includes`), by fuel over the
positions of `s`. -/
def containsAux (pat : List Char) : Nat → List Char → Bool
  | 0, s => startsWithChars pat s
  | fuel + 1, s =>
    if startsWithChars pat s then true
    else match s with
      | [] => false
      | _ :: cs => containsAux pat fuel cs

/-- Models `s.includes(pat)` for JavaScript strings. -/
def containsChars (pat s : List Char) : Bool := containsAux pat s.length s

/-- Exact suffix test (`String.prototype.endsWith`); used only to state
spec-side properties. -/
def endsWithChars (pat s : List Char) : Bool :=
  startsWithChars pat.reverse s.reverse

/-- Decimal rendering of a natural number, as JavaScript's number-to-string
coercion produces for the HTTP status codes involved. -/
def natToCharsAux : Nat → Nat → List Char → List Char
  | 0, _, acc => acc
  | fuel + 1, n, acc =>
    if n < 10 then Char.ofNat (48 + n) :: acc
    else natToCharsAux fuel (n / 10) (Char.ofNat (48 + n % 10) :: acc)

/-- Decimal rendering of a natural number. -/
def natToChars (n : Nat) : List Char := natToCharsAux (n + 1) n []

/-- ASCII letter test. -/
def isAsciiAlpha (c : Char) : Bool := ('a' ≤ c ∧ c ≤ 'z') ∨ ('A' ≤ c ∧ c ≤ 'Z')

/-- Characters allowed after the first character of a URL scheme. -/
def isSchemeChar (c : Char) : Bool :=
  isAsciiAlpha c ∨ ('0' ≤ c ∧ c ≤ '9') ∨ c = '+' ∨ c = '-' ∨ c = '.'

/-- Splits a leading `scheme:` prefix off a URL string, returning the
lower-cased scheme and the remainder, or `none` when the string has no
scheme (in which case `new URL` throws for an absolute-URL parse). -/
def schemeSplitAux (acc : List Char) : List Char → Option (List Char × List Char)
  | [] => none
  | c :: cs =>
    if c = ':' then some (acc.reverse, cs)
    else if isSchemeChar c then schemeSplitAux (lc c :: acc) cs
    else none

/-- See `schemeSplitAux`; rejects strings not starting with an ASCII letter. -/
def schemeSplit : List Char → Option (List Char × List Char)
  | [] => none
  | c :: cs => if isAsciiAlpha c then schemeSplitAux [lc c] cs else none

/-- Model of the source's `isHttpUrl`: `new URL(u)` must succeed and the
parsed protocol must be `http:` or `https:`.  The WHATWG parser used by the
runtime is modelled to the depth the program relies on: a leading scheme
must be present, and for the special schemes `http`/`https` a non-empty
host must follow (after skipping any run of slashes, as the special-scheme
parser does). -/
def isHttpUrl (u : List Char) : Bool :=
  match schemeSplit u with
  | none => false
  | some (scheme, rest) =>
    if scheme = "http".data ∨ scheme = "https".data then
      let afterSlashes := rest.dropWhile (fun c => c = '/' ∨ c = bslash)
      let host := afterSlashes.takeWhile
        (fun c => ¬ (c = '/' ∨ c = bslash ∨ c = '?' ∨ c = '#'))
      host ≠ []
    else false

/-- A character of a hand-compiled regex pattern: a literal (stored
lower-cased, matched case-insensitively) or the regex wildcard `.` which
matches anything but a line terminator. -/
inductive Pat where
  | lit (c : Char)
  | anyc
deriving DecidableEq

/-- JavaScript line terminators, which the regex wildcard `.` does not
match. -/
def isLineTerm (c : Char) : Bool :=
  c = Char.ofNat 10 ∨ c = Char.ofNat 13 ∨ c = Char.ofNat 0x2028 ∨ c = Char.ofNat 0x2029

/-- Anchored case-insensitive prefix match of a compiled pattern, modelling
`/^pat/i.test s`. -/
def patMatch : List Pat → List Char → Bool
  | [], _ => true
  | _ :: _, [] => false
  | Pat.lit p :: ps, c :: cs => if lc c = p then patMatch ps cs else false
  | Pat.anyc :: ps, c :: cs => if isLineTerm c then false else patMatch ps cs

/-- Literal pattern from a (lower-case) string. -/
def litStr (s : String) : List Pat := s.data.map Pat.lit

/-- The compiled `ALLOW` list of the source, one full prefix pattern per
regex alternative, in source order.  The dots of `vnd.apple.mpegURL` are
unescaped in the source regex and therefore wildcards. -/
def allowPats : List (List Pat) :=
  [litStr "video/mp4", litStr "video/webm", litStr "video/ogg", litStr "video/x-matroska",
   litStr "audio/mpeg", litStr "audio/mp3", litStr "audio/ogg", litStr "audio/aac",
   litStr "audio/wav", litStr "audio/webm",
   litStr "image/jpeg", litStr "image/png", litStr "image/webp", litStr "image/gif",
   litStr "application/octet-stream", litStr "application/x-mpegurl",
   litStr "application/vnd" ++ [Pat.anyc] ++ litStr "apple" ++ [Pat.anyc] ++ litStr "mpegurl"]

/-- The source's `allowedType`: some `ALLOW` regex tests true on `ct`. -/
def allowedType (ct : List Char) : Bool := allowPats.any (fun p => patMatch p ct)

/-- The scan character class `[^"'\s]` of the direct-link regex. -/
def isUrlChar (c : Char) : Bool := ¬ (c = dquote ∨ c = squote ∨ isJsSpace c)

/-- Matches the `\.(?:mp4|m3u8)` tail of the direct-link regex at the head
of `s`, returning consumed characters and remainder. -/
def extMatch (s : List Char) : Option (List Char × List Char) :=
  if startsWithCI ".mp4".data s then some (s.take 4, s.drop 4)
  else if startsWithCI ".m3u8".data s then some (s.take 5, s.drop 5)
  else none

/-- The lazy loop of `[^"'\s]+?\.(?:mp4|m3u8)` after its first mandatory
character: at each position try the extension first, else consume one more
class character. -/
def lazyExt : List Char → Option (List Char × List Char)
  | [] => none
  | c :: cs =>
    match extMatch (c :: cs) with
    | some (e, rest) => some (e, rest)
    | none =>
      if isUrlChar c then
        match lazyExt cs with
        | some (m, rest) => some (c :: m, rest)
        | none => none
      else none

/-- The fragment `[^"'\s]+?\.(?:mp4|m3u8)`: one mandatory class character, then the lazy
loop. -/
def urlBody : List Char → Option (List Char × List Char)
  | [] => none
  | c :: cs =>
    if isUrlChar c then
      match lazyExt cs with
      | some (m, rest) => some (c :: m, rest)
      | none => none
    else none

/-- The optional query group `(?:\?[^"'\s]*)?`, greedy. -/
def queryPart : List Char → (List Char × List Char)
  | [] => ([], [])
  | c :: cs =>
    if c = '?' then
      let sp := cs.span isUrlChar
      (c :: sp.1, sp.2)
    else ([], c :: cs)

/-- The `https?:\/\/` head of the direct-link regex, matched at the head of
the input; returns the consumed characters (original case) and remainder. -/
def schemeMatch : List Char → Option (List Char × List Char)
  | a :: b :: c :: d :: rest =>
    if lc a = 'h' ∧ lc b = 't' ∧ lc c = 't' ∧ lc d = 'p' then
      match rest with
      | e :: f :: g :: h :: rest2 =>
        if lc e = 's' ∧ f = ':' ∧ g = '/' ∧ h = '/' then
          some ([a, b, c, d, e, f, g, h], rest2)
        else if e = ':' ∧ f = '/' ∧ g = '/' then
          some ([a, b, c, d, e, f, g], h :: rest2)
        else none
      | [e, f, g] =>
        if e = ':' ∧ f = '/' ∧ g = '/' then some ([a, b, c, d, e, f, g], []) else none
      | _ => none
    else none
  | _ => none

/-- Attempts the whole direct-link regex at the head of `s`, returning
`m[0]` (scheme, body with extension, optional query) and the remainder the
global scan resumes from (`lastIndex`). -/
def tryMatchAt (s : List Char) : Option (List Char × List Char) :=
  match schemeMatch s with
  | none => none
  | some (sch, r1) =>
    match urlBody r1 with
    | none => none
    | some (b, r2) =>
      let q := queryPart r2
      some (sch ++ b ++ q.1, q.2)

/-- The global `rx.exec` loop: at each position try a match; on success
resume after it, otherwise advance one character. -/
def scanAux : Nat → List Char → List (List Char)
  | 0, _ => []
  | _ + 1, [] => []
  | fuel + 1, c :: cs =>
    match tryMatchAt (c :: cs) with
    | some (m, rest) => m :: scanAux fuel rest
    | none => scanAux fuel cs

/-- Models `u.replace(/\\\//g, '/')`: left-to-right non-overlapping replacement of
backslash-slash by slash. -/
def unescapeSlashes : List Char → List Char
  | [] => []
  | c :: cs =>
    match cs with
    | [] => [c]
    | c2 :: cs2 =>
      if c = bslash ∧ c2 = '/' then '/' :: unescapeSlashes cs2
      else c :: unescapeSlashes (c2 :: cs2)

/-- All direct-link matches of the document, in match order, each with its
escaped slashes unescaped (the loop body of the source's scan). -/
def scanUrls (html : List Char) : List (List Char) :=
  (scanAux html.length html).map unescapeSlashes

/-- Quote characters accepted by the meta-tag regexes (`["']`). -/
def isQuote (c : Char) : Bool := c = dquote ∨ c = squote

/-- The fragment `content=["']([^"']+)["']` at the head of `s`: returns the captured
non-empty value. -/
def matchContent (s : List Char) : Option (List Char) :=
  if startsWithCI "content=".data s then
    match s.drop 8 with
    | [] => none
    | c :: cs =>
      if isQuote c then
        let v := cs.takeWhile (fun x => ¬ isQuote x)
        if v = [] then none
        else
          match cs.drop v.length with
          | [] => none
          | q :: _ => if isQuote q then some v else none
      else none
  else none

/-- Backtracking of the greedy `[^>]*` before `content=`: try the longest
gap first and shrink. -/
def tryContentDesc : Nat → List Char → Option (List Char)
  | 0, s => matchContent s
  | k + 1, s =>
    match matchContent (s.drop (k + 1)) with
    | some v => some v
    | none => tryContentDesc k s

/-- The fragment `[^>]*content=["']([^"']+)["']` at the head of `s`. -/
def contentAfterGap (s : List Char) : Option (List Char) :=
  tryContentDesc (s.takeWhile (fun c => ¬ c = '>')).length s

/-- A quote followed by `contentAfterGap` (the part after the property
name in the meta-tag regexes). -/
def matchQuoteGap : List Char → Option (List Char)
  | [] => none
  | q :: rest => if isQuote q then contentAfterGap rest else none

/-- The regex `property=["']PROP(:url)?["'][^>]*content=["']([^"']+)["']` at the head
of `s`; `allowUrl` enables the optional `(:url)?` group (greedy, with
backtracking), used only for `og:video`. -/
def matchOgAt (prop : List Char) (allowUrl : Bool) (s : List Char) : Option (List Char) :=
  if startsWithCI "property=".data s then
    match s.drop 9 with
    | [] => none
    | q1 :: r1 =>
      if isQuote q1 then
        if startsWithCI prop r1 then
          let r2 := r1.drop prop.length
          if allowUrl then
            match (if startsWithCI ":url".data r2 then matchQuoteGap (r2.drop 4) else none) with
            | some v => some v
            | none => matchQuoteGap r2
          else matchQuoteGap r2
        else none
      else none
  else none

/-- Models `html.match(re)` for a non-global regex: leftmost match, scanning the
start position forward. -/
def findFirstAux (f : List Char → Option (List Char)) : Nat → List Char → Option (List Char)
  | 0, _ => none
  | fuel + 1, s =>
    match f s with
    | some v => some v
    | none =>
      match s with
      | [] => none
      | _ :: cs => findFirstAux f fuel cs

/-- The `og:video`/`og:video:url` content of the document, `''` if absent
(the source's `ogVideo`, group 2 with fallback `''`). -/
def extractOgVideo (html : List Char) : List Char :=
  (findFirstAux (matchOgAt "og:video".data true) (html.length + 1) html).getD []

/-- The `og:image` content of the document, `''` if absent. -/
def extractOgImage (html : List Char) : List Char :=
  (findFirstAux (matchOgAt "og:image".data false) (html.length + 1) html).getD []

/-- The `og:title` content of the document, `''` if absent (extended
variant's `/api/og`). -/
def extractOgTitle (html : List Char) : List Char :=
  (findFirstAux (matchOgAt "og:title".data false) (html.length + 1) html).getD []

/-- The regex `<title>([^<]+)<\/title>` at the head of `s`. -/
def matchTitleAt (s : List Char) : Option (List Char) :=
  if startsWithCI "<title>".data s then
    let r := s.drop 7
    let v := r.takeWhile (fun c => ¬ c = '<')
    if v = [] then none
    else if startsWithCI "</title>".data (r.drop v.length) then some v else none
  else none

/-- Models `String.prototype.trim`. -/
def trimChars (s : List Char) : List Char :=
  ((s.dropWhile isJsSpace).reverse.dropWhile isJsSpace).reverse

/-- The document title, trimmed, `''` if absent (the source's `title`). -/
def extractTitle (html : List Char) : List Char :=
  trimChars ((findFirstAux matchTitleAt (html.length + 1) html).getD [])

/-- Characters removed by the `illegalRe` of `sanitize-filename`
(`/[\/\?<>\\:\*\|"]/g`). -/
def illegalFileChar (c : Char) : Bool :=
  c = '/' ∨ c = '?' ∨ c = '<' ∨ c = '>' ∨ c = bslash ∨ c = ':' ∨ c = '*' ∨ c = '|' ∨ c = dquote

/-- Characters removed by the `controlRe` of `sanitize-filename`
(`/[\x00-\x1f\x80-\x9f]/g`). -/
def controlFileChar (c : Char) : Bool :=
  c.toNat ≤ 0x1f ∨ (0x80 ≤ c.toNat ∧ c.toNat ≤ 0x9f)

/-- The `reservedRe` of `sanitize-filename` (`/^\.+$/`). -/
def allDots (s : List Char) : Bool := ¬ s = [] ∧ s.all (fun c => c = '.')

/-- The reserved device names of `sanitize-filename`'s
`windowsReservedRe`. -/
def reservedNames : List (List Char) :=
  ["con".data, "prn".data, "aux".data, "nul".data] ++
  (List.range 10).map (fun n => "com".data ++ [Char.ofNat (48 + n)]) ++
  (List.range 10).map (fun n => "lpt".data ++ [Char.ofNat (48 + n)])

/-- No line terminators, as required of the span matched by `.*`. -/
def noLineTerm (s : List Char) : Bool := s.all (fun c => ¬ isLineTerm c)

/-- The `windowsReservedRe` of `sanitize-filename`
(`/^(con|prn|aux|nul|com[0-9]|lpt[0-9])(\..*)?$/i`), as a whole-string
test. -/
def winReservedMatch (s : List Char) : Bool :=
  reservedNames.any (fun r =>
    startsWithCI r s &&
    (match s.drop r.length with
     | [] => true
     | c :: rest => decide (c = '.') && noLineTerm rest))

/-- The `windowsTrailingRe` replacement of `sanitize-filename`
(`/[\. ]+$/` removed). -/
def dropTrailingDotsSpaces (s : List Char) : List Char :=
  (s.reverse.dropWhile (fun c => c = '.' ∨ c = ' ')).reverse

/-- UTF-8 width of a code point. -/
def utf8Size (c : Char) : Nat :=
  if c.toNat < 0x80 then 1 else if c.toNat < 0x800 then 2
  else if c.toNat < 0x10000 then 3 else 4

/-- Truncation to a UTF-8 byte budget without splitting a character, as
`truncate-utf8-bytes` does. -/
def takeUtf8 : Nat → List Char → List Char
  | _, [] => []
  | budget, c :: cs =>
    if utf8Size c ≤ budget then c :: takeUtf8 (budget - utf8Size c) cs else []

/-- Model of the npm `sanitize-filename` package (default empty
replacement): the five sequential regex replacements followed by a 255-byte
truncation. -/
def sanitizeFilename (s : List Char) : List Char :=
  let s1 := s.filter (fun c => ¬ illegalFileChar c)
  let s2 := s1.filter (fun c => ¬ controlFileChar c)
  let s3 := if allDots s2 then [] else s2
  let s4 := if winReservedMatch s3 then [] else s3
  takeUtf8 255 (dropTrailingDotsSpaces s4)

/-- The outcome of one outbound fetch that did not throw: status, final
URL after redirects, the content-type and content-length headers, and the
body text.  A thrown fetch is `Option.none` at the call sites. -/
structure Fetched where
  status : Nat
  finalUrl : List Char
  contentType : Option (List Char)
  contentLength : Option (List Char)
  body : List Char
deriving DecidableEq

/-- Models `response.ok`: status in the 200-299 range. -/
def rok (status : Nat) : Bool := 200 ≤ status ∧ status < 300

/-- One entry of the resolver's `media` array (`{ url, type }`). -/
structure MediaCandidate where
  url : List Char
  type : List Char
deriving DecidableEq

/-- The JSON shape sent by `/api/resolve/rednote`, with its HTTP status;
absent JSON keys are `none`. -/
structure ResolveResp where
  status : Nat
  ok : Bool
  error : Option (List Char)
  page : Option (List Char)
  title : Option (List Char)
  cover : Option (List Char)
  media : List MediaCandidate
deriving DecidableEq

/-- The JSON shape sent by `/api/head`, with its HTTP status. -/
structure HeadResp where
  status : Nat
  ok : Bool
  error : Option (List Char)
  contentType : Option (List Char)
  contentLength : Option (List Char)
deriving DecidableEq

/-- The JSON shape sent by `/api/og`, with its HTTP status. -/
structure OgResp where
  status : Nat
  ok : Bool
  error : Option (List Char)
  title : Option (List Char)
  image : Option (List Char)
deriving DecidableEq

/-- What `/api/download` sends: either a plain-text body, or the upstream
body piped through. -/
inductive DlBody where
  | text (t : List Char)
  | stream
deriving DecidableEq

/-- The response of `/api/download`: status, body, and the two headers it
sets on success. -/
structure DlResp where
  status : Nat
  body : DlBody
  contentType : Option (List Char)
  disposition : Option (List Char)
deriving DecidableEq

def msgInvalidUrl : List Char := "URL tidak valid".data
def msgHeadFail : List Char :=
  "Gagal memeriksa URL. Pastikan file publik & tidak perlu login.".data
def msgTypeNotAllowed : List Char :=
  "Tipe konten tidak didukung / bukan file publik langsung.".data
def msgOgFail : List Char := "Tidak bisa ambil metadata (mungkin bukan halaman HTML).".data
def msgNoMedia : List Char :=
  "Tidak menemukan URL media langsung di halaman ini. Bisa jadi konten dilindungi atau perlu login.".data
def msgResolveFail : List Char :=
  "Gagal memproses halaman. Pastikan postingan publik & tidak perlu login.".data
def msgDlFailPre : List Char := "Gagal mengunduh: ".data
def msgDlServerError : List Char := "Server error saat mengunduh.".data

/-- Models `if (ogVideo) urls.add(ogVideo)`: the og:video candidate, as a list. -/
def ogPart (html : List Char) : List (List Char) :=
  if extractOgVideo html = [] then [] else [extractOgVideo html]

/-- Models `Set.prototype.add` on an insertion-ordered set represented as a
duplicate-free list. -/
def insUniq (acc : List (List Char)) (u : List Char) : List (List Char) :=
  if u ∈ acc then acc else acc ++ [u]

/-- The resolver's `urls` set in insertion order: all scan matches, then
the og:video candidate. -/
def mediaUrls (html : List Char) : List (List Char) :=
  List.foldl insUniq [] (scanUrls html ++ ogPart html)

/-- Models `u.includes('.m3u8') ? 'application/x-mpegURL' : 'video/mp4'`. -/
def mediaType (u : List Char) : List Char :=
  if containsChars ".m3u8".data u then "application/x-mpegURL".data else "video/mp4".data

/-- The resolver's `media` array. -/
def mediaList (html : List Char) : List MediaCandidate :=
  (mediaUrls html).map (fun u => MediaCandidate.mk u (mediaType u))

/-- The `/api/resolve/rednote` handler, as a function of the query `url`
and the fetch outcome. -/
def resolveRednote (url : List Char) (fetched : Option Fetched) : ResolveResp :=
  if isHttpUrl url = false then ResolveResp.mk 400 false (some msgInvalidUrl) none none none []
  else
    match fetched with
    | none => ResolveResp.mk 500 false (some msgResolveFail) none none none []
    | some pg =>
      if mediaList pg.body = [] ∧ extractOgImage pg.body = [] then
        ResolveResp.mk 200 false (some msgNoMedia) none none none []
      else
        ResolveResp.mk 200 true none (some pg.finalUrl) (some (extractTitle pg.body))
          (some (extractOgImage pg.body)) (mediaList pg.body)

/-- Models `x || ''` for an optional header value. -/
def strD (o : Option (List Char)) : List Char := o.getD []

/-- JavaScript falsiness of a possibly-missing string (null or `''`). -/
def falsyOpt (o : Option (List Char)) : Bool := o = none ∨ o = some []

/-- The tail of the `/api/head` handler after a usable response was
chosen. -/
def headFinish (r : Fetched) : HeadResp :=
  let ct := strD r.contentType
  let cl := strD r.contentLength
  if allowedType ct = false then HeadResp.mk 200 false (some msgTypeNotAllowed) (some ct) (some cl)
  else HeadResp.mk 200 true none (some ct) (some cl)

/-- The `/api/head` handler: `f1` is the HEAD fetch outcome, `f2` the
ranged-GET fallback outcome (consulted only when the HEAD response is not
ok or lacks a content type). -/
def headHandler (url : List Char) (f1 f2 : Option Fetched) : HeadResp :=
  if isHttpUrl url = false then HeadResp.mk 400 false (some msgInvalidUrl) none none
  else
    match f1 with
    | none => HeadResp.mk 500 false (some msgHeadFail) none none
    | some r =>
      if rok r.status = false ∨ falsyOpt r.contentType = true then
        match f2 with
        | none => HeadResp.mk 500 false (some msgHeadFail) none none
        | some r2 => headFinish r2
      else headFinish r

/-- Models `a || b` on strings. -/
def orNonempty (a b : List Char) : List Char := if a = [] then b else a

/-- The `/api/og` handler. -/
def ogHandler (url : List Char) (fetched : Option Fetched) : OgResp :=
  if isHttpUrl url = false then OgResp.mk 400 false (some msgInvalidUrl) none none
  else
    match fetched with
    | none => OgResp.mk 200 false (some msgOgFail) none none
    | some r =>
      OgResp.mk 200 true none
        (some (orNonempty (extractOgTitle r.body) (extractTitle r.body)))
        (some (extractOgImage r.body))

/-- Models `filename || 'download'`. -/
def effectiveName (filename : List Char) : List Char :=
  if filename = [] then "download".data else filename

/-- JavaScript `\w`. -/
def wordChar (c : Char) : Bool :=
  ('a' ≤ c ∧ c ≤ 'z') ∨ ('A' ≤ c ∧ c ≤ 'Z') ∨ ('0' ≤ c ∧ c ≤ '9') ∨ c = '_'

/-- Models `ct.match(/\/(\w+)/)?.[1]`: the first maximal word run following a
slash, scanning left to right. -/
def slashWordAux : Nat → List Char → Option (List Char)
  | 0, _ => none
  | fuel + 1, s =>
    match s with
    | [] => none
    | c :: cs =>
      if c = '/' then
        let w := cs.takeWhile wordChar
        if w = [] then slashWordAux fuel cs else some w
      else slashWordAux fuel cs

/-- See `slashWordAux`. -/
def slashWord (s : List Char) : Option (List Char) := slashWordAux s.length s

/-- The download handler's extension expression:
`(ct.match(/\/(\w+)/)?.[1] || (url.includes('.m3u8')?'m3u8':'bin')).toLowerCase()`. -/
def extChoice (ct url : List Char) : List Char :=
  (match slashWord ct with
   | some w => w
   | none => if containsChars ".m3u8".data url then "m3u8".data else "bin".data).map lc

/-- The `Content-Disposition` header value
`attachment; filename="NAME.EXT"`. -/
def dispoHeader (base ext : List Char) : List Char :=
  "attachment; filename=".data ++ [dquote] ++ base ++ '.' :: ext ++ [dquote]

/-- The `/api/download` handler, as a function of the query parameters and
the fetch outcome.  The referer parameter only influences outbound request
headers, never the response. -/
def downloadHandler (url filename _referer : List Char) (fetched : Option Fetched) : DlResp :=
  if isHttpUrl url = false then DlResp.mk 400 (DlBody.text msgInvalidUrl) none none
  else
    let safeName := sanitizeFilename (effectiveName filename)
    match fetched with
    | none => DlResp.mk 500 (DlBody.text msgDlServerError) none none
    | some r =>
      if rok r.status = false then
        DlResp.mk 400 (DlBody.text (msgDlFailPre ++ natToChars r.status)) none none
      else
        let ct := orNonempty (strD r.contentType) "application/octet-stream".data
        DlResp.mk 200 DlBody.stream (some ct) (some (dispoHeader safeName (extChoice ct url)))

/-- Case-insensitive `http://` or `https://` prefix test, used to state
what shape the scanned candidates have. -/
def startsHttpCI (u : List Char) : Bool :=
  startsWithCI "http://".data u || startsWithCI "https://".data u

/-- A `type/subtype` prefix pattern, mirroring how the specification
enumerates the allowlist. -/
def slashed (t : String) (sub : List Pat) : List Pat :=
  litStr t ++ Pat.lit '/' :: sub

/-- The allowlist exactly as the specification enumerates it: video
(mp4/webm/ogg/matroska), audio (mpeg/ogg/aac/wav/webm), image
(jpeg/png/webp/gif), generic/streaming binary (octet-stream, m3u8
variants), as case-insensitive prefixes (tolerating a trailing charset
parameter); `matroska` is read as the `video/x-matroska` type and the
`m3u8 variants` as `application/x-mpegurl` and
`application/vnd.apple.mpegurl` with literal dots. -/
def claimGatePats : List (List Pat) :=
  (["mp4", "webm", "ogg", "x-matroska"].map (fun s => slashed "video" (litStr s))) ++
  (["mpeg", "ogg", "aac", "wav", "webm"].map (fun s => slashed "audio" (litStr s))) ++
  (["jpeg", "png", "webp", "gif"].map (fun s => slashed "image" (litStr s))) ++
  [slashed "application" (litStr "octet-stream"),
   slashed "application" (litStr "x-mpegurl"),
   slashed "application" (litStr "vnd.apple.mpegurl")]

/-- The content-type gate as the specification words it. -/
def claimGate (ct : List Char) : Bool := claimGatePats.any (fun p => patMatch p ct)

/-- The allowlist as amended: `audio/mp3` is also accepted, and the two
dots of `vnd.apple.mpegURL` are regex wildcards (any non-line-terminator
character), since the source regex leaves them unescaped. -/
def amendedGatePats : List (List Pat) :=
  (["mp4", "webm", "ogg", "x-matroska"].map (fun s => slashed "video" (litStr s))) ++
  (["mpeg", "mp3", "ogg", "aac", "wav", "webm"].map (fun s => slashed "audio" (litStr s))) ++
  (["jpeg", "png", "webp", "gif"].map (fun s => slashed "image" (litStr s))) ++
  [slashed "application" (litStr "octet-stream"),
   slashed "application" (litStr "x-mpegurl"),
   slashed "application" (litStr "vnd" ++ Pat.anyc :: litStr "apple" ++ Pat.anyc :: litStr "mpegurl")]

/-- The amended content-type gate. -/
def claimGateAmended (ct : List Char) : Bool := amendedGatePats.any (fun p => patMatch p ct)

/-- The download extension rule as amended: the lower-cased first word run
after a `/` in the effective content type (the declared one, or
`application/octet-stream` when the header is missing or empty); when no
such run exists, `m3u8` if the source URL contains `.m3u8` anywhere, else
`bin`. -/
def specExtension (ctHeader : Option (List Char)) (url : List Char) : List Char :=
  match slashWord (orNonempty (strD ctHeader) "application/octet-stream".data) with
  | some w => w.map lc
  | none => if containsChars ".m3u8".data url then "m3u8".data else "bin".data

end Rednote

namespace Rednote

/-- Removing an element of a list that reappears later does not change
`dedup` (which keeps last occurrences). -/
theorem dedup_append_mid {α : Type} [DecidableEq α] (x : α) :
    ∀ (l₁ l₂ : List α), x ∈ l₂ → (l₁ ++ x :: l₂).dedup = (l₁ ++ l₂).dedup
  | [], l₂, h => by simp [List.dedup_cons_of_mem h]
  | a :: l₁, l₂, h => by
    by_cases ha : a ∈ l₁ ++ l₂
    · have ha' : a ∈ l₁ ++ x :: l₂ := by
        rcases List.mem_append.mp ha with h1 | h2
        · exact List.mem_append.mpr (Or.inl h1)
        · exact List.mem_append.mpr (Or.inr (List.mem_cons_of_mem _ h2))
      rw [List.cons_append, List.dedup_cons_of_mem ha', List.cons_append,
        List.dedup_cons_of_mem ha]
      exact dedup_append_mid x l₁ l₂ h
    · have ha' : a ∉ l₁ ++ x :: l₂ := by
        intro hc
        rcases List.mem_append.mp hc with h1 | h2
        · exact ha (List.mem_append.mpr (Or.inl h1))
        · rcases List.mem_cons.mp h2 with rfl | h3
          · exact ha (List.mem_append.mpr (Or.inr h))
          · exact ha (List.mem_append.mpr (Or.inr h3))
      rw [List.cons_append, List.dedup_cons_of_not_mem ha', List.cons_append,
        List.dedup_cons_of_not_mem ha, dedup_append_mid x l₁ l₂ h]

/-- The `Set`-fold keeps the first occurrence of each element: reversed, it
is the last-occurrence `dedup` of the reversed input. -/
theorem foldl_insUniq_rev :
    ∀ (xs acc : List (List Char)), acc.Nodup →
      (List.foldl insUniq acc xs).reverse = (xs.reverse ++ acc.reverse).dedup
  | [], acc, h => by
    have : acc.reverse.Nodup := List.nodup_reverse.mpr h
    simpa using (List.dedup_eq_self.mpr this).symm
  | x :: xs, acc, h => by
    rw [List.foldl_cons]
    by_cases hx : x ∈ acc
    · rw [show insUniq acc x = acc from if_pos hx, foldl_insUniq_rev xs acc h,
        List.reverse_cons, List.append_assoc, List.singleton_append,
        dedup_append_mid x xs.reverse acc.reverse (List.mem_reverse.mpr hx)]
    · have hnd : (acc ++ [x]).Nodup := by
        rw [List.nodup_append]
        refine ⟨h, List.nodup_singleton x, ?_⟩
        intro a ha hb
        rw [List.mem_singleton] at hb
        exact hx (hb ▸ ha)
      rw [show insUniq acc x = acc ++ [x] from if_neg hx, foldl_insUniq_rev xs (acc ++ [x]) hnd,
        List.reverse_append, List.reverse_singleton, List.singleton_append,
        List.reverse_cons, List.append_assoc, List.singleton_append]

/-- The resolver's URL set, characterised through `List.dedup`. -/
theorem mediaUrls_eq (html : List Char) :
    mediaUrls html = ((scanUrls html ++ ogPart html).reverse.dedup).reverse := by
  have h := foldl_insUniq_rev (scanUrls html ++ ogPart html) [] List.nodup_nil
  simp only [List.reverse_nil, List.append_nil] at h
  rw [mediaUrls, ← List.reverse_reverse (List.foldl insUniq [] (scanUrls html ++ ogPart html)),
    h]

/-- The resolver's URL set is duplicate-free. -/
theorem mediaUrls_nodup (html : List Char) : (mediaUrls html).Nodup := by
  rw [mediaUrls_eq]
  exact List.nodup_reverse.mpr (List.nodup_dedup _)

/-- Membership in the resolver's URL set. -/
theorem mem_mediaUrls (html u : List Char) :
    u ∈ mediaUrls html ↔ u ∈ scanUrls html ∨ u ∈ ogPart html := by
  rw [mediaUrls_eq]
  simp only [List.mem_reverse, List.mem_dedup, List.mem_append]

theorem lc_target_ne_bslash {c d : Char} (h : lc c = d) (hd : ¬ d = bslash) :
    ¬ c = bslash := by
  intro hc
  apply hd
  rw [← h, hc]
  decide

theorem startsWithCI_append : ∀ (ps s t : List Char),
    startsWithCI ps s = true → startsWithCI ps (s ++ t) = true
  | [], _, _, _ => rfl
  | _ :: _, [], _, h => by simp [startsWithCI] at h
  | p :: ps, c :: cs, t, h => by
    rw [List.cons_append]
    by_cases hc : lc c = p
    · simp only [startsWithCI, if_pos hc] at h ⊢
      exact startsWithCI_append ps cs t h
    · simp only [startsWithCI, if_neg hc] at h
      exact Bool.noConfusion h

/-- Prefixes free of backslashes pass through the unescaping intact. -/
theorem unescape_pres : ∀ (p : List Char), (∀ c ∈ p, ¬ c = bslash) →
    ∀ t, ∃ u, unescapeSlashes (p ++ t) = p ++ u
  | [], _, t => ⟨unescapeSlashes t, rfl⟩
  | c :: p, hp, t => by
    have hc : ¬ c = bslash := hp c (List.mem_cons_self c p)
    cases hpt : p ++ t with
    | nil =>
      rcases List.append_eq_nil.mp hpt with ⟨rfl, rfl⟩
      exact ⟨[], by simp [unescapeSlashes]⟩
    | cons c2 cs2 =>
      obtain ⟨u, hu⟩ := unescape_pres p (fun d hd => hp d (List.mem_cons_of_mem c hd)) t
      refine ⟨u, ?_⟩
      rw [List.cons_append, hpt]
      simp only [unescapeSlashes]
      rw [if_neg (fun hcc => hc hcc.1), ← hpt, hu, List.cons_append]

theorem startsHttpCI_append (s t : List Char) (h : startsHttpCI s = true) :
    startsHttpCI (s ++ t) = true := by
  rw [startsHttpCI, Bool.or_eq_true] at h ⊢
  rcases h with h | h
  · exact Or.inl (startsWithCI_append _ _ _ h)
  · exact Or.inr (startsWithCI_append _ _ _ h)

/-- A successful scheme match consumed a case-variant of `http://` or
`https://`: backslash-free and recognised by `startsHttpCI`. -/
theorem schemeMatch_shape (s sch r : List Char) (h : schemeMatch s = some (sch, r)) :
    (∀ c ∈ sch, ¬ c = bslash) ∧ startsHttpCI sch = true := by
  unfold schemeMatch at h
  split at h
  · split at h
    · rename_i a b c d rest hcond
      obtain ⟨ha, hb2, hc2, hd⟩ := hcond
      split at h
      · split at h
        · rename_i e f g h2 rest2 hcond2
          obtain ⟨he, hf, hg, hh⟩ := hcond2
          simp only [Option.some.injEq, Prod.mk.injEq] at h
          obtain ⟨h1, _⟩ := h
          subst h1
          subst hf; subst hg; subst hh
          constructor
          · intro x hx
            simp only [List.mem_cons, List.not_mem_nil, or_false] at hx
            rcases hx with rfl | rfl | rfl | rfl | rfl | rfl | rfl | rfl
            · exact lc_target_ne_bslash ha (by decide)
            · exact lc_target_ne_bslash hb2 (by decide)
            · exact lc_target_ne_bslash hc2 (by decide)
            · exact lc_target_ne_bslash hd (by decide)
            · exact lc_target_ne_bslash he (by decide)
            · decide
            · decide
            · decide
          · rw [startsHttpCI, Bool.or_eq_true]
            right
            simp [startsWithCI, ha, hb2, hc2, hd, he]
            decide
        · rename_i e f g h2 rest2 hneg1
          split at h
          · rename_i hcond2
            obtain ⟨hf, hg, hh⟩ := hcond2
            simp only [Option.some.injEq, Prod.mk.injEq] at h
            obtain ⟨h1, _⟩ := h
            subst h1
            subst hf; subst hg; subst hh
            constructor
            · intro x hx
              simp only [List.mem_cons, List.not_mem_nil, or_false] at hx
              rcases hx with rfl | rfl | rfl | rfl | rfl | rfl | rfl
              · exact lc_target_ne_bslash ha (by decide)
              · exact lc_target_ne_bslash hb2 (by decide)
              · exact lc_target_ne_bslash hc2 (by decide)
              · exact lc_target_ne_bslash hd (by decide)
              · decide
              · decide
              · decide
            · rw [startsHttpCI, Bool.or_eq_true]
              left
              simp [startsWithCI, ha, hb2, hc2, hd]
              decide
          · exact absurd h (by simp)
      · split at h
        · rename_i e f g hcond2
          obtain ⟨hf, hg, hh⟩ := hcond2
          simp only [Option.some.injEq, Prod.mk.injEq] at h
          obtain ⟨h1, _⟩ := h
          subst h1
          subst hf; subst hg; subst hh
          constructor
          · intro x hx
            simp only [List.mem_cons, List.not_mem_nil, or_false] at hx
            rcases hx with rfl | rfl | rfl | rfl | rfl | rfl | rfl
            · exact lc_target_ne_bslash ha (by decide)
            · exact lc_target_ne_bslash hb2 (by decide)
            · exact lc_target_ne_bslash hc2 (by decide)
            · exact lc_target_ne_bslash hd (by decide)
            · decide
            · decide
            · decide
          · rw [startsHttpCI, Bool.or_eq_true]
            left
            simp [startsWithCI, ha, hb2, hc2, hd]
            decide
        · exact absurd h (by simp)
      · exact absurd h (by simp)
    · exact absurd h (by simp)
  · exact absurd h (by simp)

/-- Every raw scan match, once unescaped, starts with a case-variant of
`http://` or `https://`. -/
theorem tryMatch_starts (s m r : List Char) (h : tryMatchAt s = some (m, r)) :
    startsHttpCI (unescapeSlashes m) = true := by
  unfold tryMatchAt at h
  cases hs : schemeMatch s with
  | none => rw [hs] at h; exact absurd h (by simp)
  | some pr =>
    obtain ⟨sch, r1⟩ := pr
    rw [hs] at h
    simp only at h
    cases hb : urlBody r1 with
    | none => rw [hb] at h; exact absurd h (by simp)
    | some pb =>
      obtain ⟨b, r2⟩ := pb
      rw [hb] at h
      simp only [Option.some.injEq, Prod.mk.injEq] at h
      obtain ⟨hm, _⟩ := h
      obtain ⟨hnb, hstart⟩ := schemeMatch_shape s sch r1 hs
      obtain ⟨u, hu⟩ := unescape_pres sch hnb (b ++ (queryPart r2).1)
      rw [← hm, List.append_assoc, hu]
      exact startsHttpCI_append sch u hstart

theorem scanAux_starts : ∀ (fuel : Nat) (s m : List Char),
    m ∈ scanAux fuel s → startsHttpCI (unescapeSlashes m) = true
  | 0, _, m, h => absurd h (by simp [scanAux])
  | _ + 1, [], m, h => absurd h (by simp [scanAux])
  | fuel + 1, c :: cs, m, h => by
    simp only [scanAux] at h
    cases ht : tryMatchAt (c :: cs) with
    | none =>
      rw [ht] at h
      exact scanAux_starts fuel cs m h
    | some pr =>
      obtain ⟨m0, rest⟩ := pr
      rw [ht] at h
      simp only at h
      rcases List.mem_cons.mp h with rfl | h2
      · exact tryMatch_starts (c :: cs) m rest ht
      · exact scanAux_starts fuel rest m h2

theorem scanUrls_starts (html m : List Char) (h : m ∈ scanUrls html) :
    startsHttpCI m = true := by
  rw [scanUrls] at h
  obtain ⟨m0, hm0, rfl⟩ := List.mem_map.mp h
  exact scanAux_starts html.length html m0 hm0

/-- C1: every response of `/api/resolve/rednote` satisfies the result
invariant: when `ok` is true the media list is non-empty or the cover URL
is non-empty, and the `error` field is present only when `ok` is false. -/
theorem c1_resolve_invariant (url : List Char) (fetched : Option Fetched) :
    ((resolveRednote url fetched).ok = true →
      ¬ (resolveRednote url fetched).media = [] ∨
      ¬ strD (resolveRednote url fetched).cover = []) ∧
    (¬ (resolveRednote url fetched).error = none →
      (resolveRednote url fetched).ok = false) := by
  unfold resolveRednote
  split
  · exact ⟨fun h => Bool.noConfusion h, fun _ => rfl⟩
  · cases fetched with
    | none => exact ⟨fun h => Bool.noConfusion h, fun _ => rfl⟩
    | some pg =>
      dsimp only
      split
      · exact ⟨fun h => Bool.noConfusion h, fun _ => rfl⟩
      · rename_i hcond
        refine ⟨fun _ => ?_, fun he => absurd rfl he⟩
        rw [not_and_or] at hcond
        rcases hcond with h1 | h2
        · exact Or.inl h1
        · exact Or.inr h2

/-- Witness for C1: a concrete response with `ok` true (cover present,
media empty). -/
theorem c1_resolve_invariant_witness :
    ¬ (resolveRednote "http://y.test/q".data
        (some (Fetched.mk 200 "http://y.test/q".data none none
          "<meta property=\"og:image\" content=\"https://y.test/c.jpg\">".data))).media = [] ∨
    ¬ strD (resolveRednote "http://y.test/q".data
        (some (Fetched.mk 200 "http://y.test/q".data none none
          "<meta property=\"og:image\" content=\"https://y.test/c.jpg\">".data))).cover = [] :=
  (c1_resolve_invariant "http://y.test/q".data
    (some (Fetched.mk 200 "http://y.test/q".data none none
      "<meta property=\"og:image\" content=\"https://y.test/c.jpg\">".data))).1 (by decide)

/-- C2 is false as stated: an `og:video` meta value is adopted as a media
candidate verbatim, so a non-URL value such as `notaurl` becomes a
candidate although `isHttpUrl` rejects it. -/
theorem c2_counterexample :
    MediaCandidate.mk "notaurl".data "video/mp4".data ∈
      (resolveRednote "http://x.test/p".data
        (some (Fetched.mk 200 "http://x.test/p".data none none
          "<meta property=\"og:video\" content=\"notaurl\">".data))).media ∧
    isHttpUrl "notaurl".data = false :=
  ⟨by decide, by decide⟩

/-- C2 (amended): every media candidate of a resolver result either starts
with a case-variant of `http://`/`https://` (candidates found by the
document scan) or is the verbatim `og:video`/`og:video:url` meta content,
which is not validated. -/
theorem c2_media_url_shape (url : List Char) (pg : Fetched) (c : MediaCandidate)
    (hc : c ∈ (resolveRednote url (some pg)).media) :
    startsHttpCI c.url = true ∨ c.url = extractOgVideo pg.body := by
  have hmem : c ∈ mediaList pg.body →
      startsHttpCI c.url = true ∨ c.url = extractOgVideo pg.body := by
    intro hm
    obtain ⟨u, hu, rfl⟩ := List.mem_map.mp hm
    rcases (mem_mediaUrls pg.body u).mp hu with h1 | h2
    · exact Or.inl (scanUrls_starts _ _ h1)
    · right
      rw [ogPart] at h2
      by_cases hov : extractOgVideo pg.body = []
      · rw [if_pos hov] at h2
        exact absurd h2 (List.not_mem_nil u)
      · rw [if_neg hov] at h2
        exact List.mem_singleton.mp h2
  unfold resolveRednote at hc
  split at hc
  · exact absurd hc (List.not_mem_nil c)
  · dsimp only at hc
    split at hc
    · exact absurd hc (List.not_mem_nil c)
    · exact hmem hc

/-- Witness for C2 (amended) at a concrete scanned candidate. -/
theorem c2_media_url_shape_witness :
    startsHttpCI "https://x.test/v.mp4".data = true ∨
      "https://x.test/v.mp4".data =
        extractOgVideo "<body>https://x.test/v.mp4</body>".data :=
  c2_media_url_shape "http://x.test/p".data
    (Fetched.mk 200 "http://x.test/p".data none none
      "<body>https://x.test/v.mp4</body>".data)
    (MediaCandidate.mk "https://x.test/v.mp4".data "video/mp4".data)
    (by decide)

/-- C3: the resolver's media list is the insertion-ordered set of the
document's scanned direct links plus the og:video candidate — duplicate
free (uniqueness by exact string equality), first-appearance order
(characterised through last-occurrence `dedup` of the reversed input), and
membership is exactly the scan matches plus the og:video value; on the
concrete page carrying the same `.mp4` URL as an og:video tag and twice in
a script, the resolver returns exactly one entry. -/
theorem c3_media_set_semantics :
    (∀ html : List Char,
      mediaUrls html = ((scanUrls html ++ ogPart html).reverse.dedup).reverse ∧
      (mediaUrls html).Nodup ∧
      (∀ u, u ∈ mediaUrls html ↔ u ∈ scanUrls html ∨ u ∈ ogPart html) ∧
      mediaList html = (mediaUrls html).map (fun u => MediaCandidate.mk u (mediaType u))) ∧
    (resolveRednote "http://x.test/n".data
        (some (Fetched.mk 200 "http://x.test/n".data none none
          ("<meta property=\"og:video\" content=\"https://x.test/a.mp4\">" ++
           "<script>s=\"https://x.test/a.mp4\";t=\"https://x.test/a.mp4\";</script>").data))).media =
      [MediaCandidate.mk "https://x.test/a.mp4".data "video/mp4".data] :=
  ⟨fun html => ⟨mediaUrls_eq html, mediaUrls_nodup html, mem_mediaUrls html, rfl⟩, by decide⟩

/-- C4: when the fetched page yields no media candidate and no og:image
cover, the resolver answers HTTP 200 with `ok:false` and a fixed non-empty
error message (the handler is a total function, so no fault escapes). -/
theorem c4_no_media_soft_failure (url : List Char) (pg : Fetched)
    (hu : isHttpUrl url = true) (hm : mediaList pg.body = [])
    (hi : extractOgImage pg.body = []) :
    resolveRednote url (some pg) =
      ResolveResp.mk 200 false (some msgNoMedia) none none none [] ∧
    ¬ msgNoMedia = [] := by
  constructor
  · simp [resolveRednote, hu, hm, hi]
  · decide

/-- Witness for C4 at a concrete page with no media markers. -/
theorem c4_no_media_soft_failure_witness :
    resolveRednote "http://x.test/e".data
      (some (Fetched.mk 200 "http://x.test/e".data none none "<p>halo</p>".data)) =
      ResolveResp.mk 200 false (some msgNoMedia) none none none [] ∧
    ¬ msgNoMedia = [] :=
  c4_no_media_soft_failure "http://x.test/e".data
    (Fetched.mk 200 "http://x.test/e".data none none "<p>halo</p>".data)
    (by decide) (by decide) (by decide)

/-- C5: a non-success upstream status makes the download proxy answer HTTP
400 with a plain-text body carrying the upstream status code, and nothing
of the upstream body is streamed. -/
theorem c5_upstream_failure (url filename referer : List Char) (r : Fetched)
    (hu : isHttpUrl url = true) (hr : rok r.status = false) :
    downloadHandler url filename referer (some r) =
      DlResp.mk 400 (DlBody.text (msgDlFailPre ++ natToChars r.status)) none none ∧
    ¬ (downloadHandler url filename referer (some r)).body = DlBody.stream := by
  have h1 : downloadHandler url filename referer (some r) =
      DlResp.mk 400 (DlBody.text (msgDlFailPre ++ natToChars r.status)) none none := by
    simp [downloadHandler, hu, hr]
  refine ⟨h1, ?_⟩
  rw [h1]
  exact fun h => DlBody.noConfusion h

/-- Witness for C5 at a concrete 404 upstream response. -/
theorem c5_upstream_failure_witness :
    downloadHandler "http://x.test/v.mp4".data "v".data []
        (some (Fetched.mk 404 "http://x.test/v.mp4".data (some "text/html".data) none [])) =
      DlResp.mk 400 (DlBody.text (msgDlFailPre ++ natToChars 404)) none none ∧
    ¬ (downloadHandler "http://x.test/v.mp4".data "v".data []
        (some (Fetched.mk 404 "http://x.test/v.mp4".data (some "text/html".data) none []))).body =
      DlBody.stream :=
  c5_upstream_failure "http://x.test/v.mp4".data "v".data []
    (Fetched.mk 404 "http://x.test/v.mp4".data (some "text/html".data) none [])
    (by decide) (by decide)

/-- C8 is false as stated: the source also accepts `audio/mp3`, which the
claim's audio enumeration (mpeg/ogg/aac/wav/webm) excludes, and the
unescaped dots of `vnd.apple.mpegURL` act as wildcards, accepting subtypes
the claimed enumeration rejects. -/
theorem c8_counterexample :
    allowedType "audio/mp3".data = true ∧ claimGate "audio/mp3".data = false ∧
    allowedType "application/vndXappleYmpegurl".data = true ∧
    claimGate "application/vndXappleYmpegurl".data = false :=
  ⟨by decide, by decide, by decide, by decide⟩

/-- C8 (amended): the content-type gate accepts exactly the
case-insensitive prefixes of the amended enumeration (audio additionally
includes mp3; the two dots of the vnd-apple m3u8 variant match any
non-line-terminator character), and the claim's concrete anchors hold:
a charset-suffixed video/mp4 passes, text/html and the empty content type
fail. -/
theorem c8_gate_equivalence :
    (∀ ct : List Char, allowedType ct = claimGateAmended ct) ∧
    allowedType "video/mp4; charset=binary".data = true ∧
    allowedType "text/html".data = false ∧
    allowedType "".data = false :=
  ⟨fun _ => rfl, by decide, by decide, by decide⟩

/-- C9 is false as stated: a thrown fetch at the OG metadata endpoint is
answered with HTTP 200 (ok:false), not HTTP 500. -/
theorem c9_counterexample :
    (ogHandler "http://x.test/m".data none).status = 200 ∧
    ¬ (ogHandler "http://x.test/m".data none).status = 500 :=
  ⟨by decide, by decide⟩

/-- C9 (amended): a thrown outbound fetch is answered with HTTP 500 and a
fixed generic message at the HEAD probe (either fetch leg) and the
resolver, while the OG endpoint answers HTTP 200 with ok:false and a fixed
generic message; all messages are constants, independent of the request
and of the failure. -/
theorem c9_network_failure (url : List Char) (hu : isHttpUrl url = true) :
    (∀ f2, headHandler url none f2 = HeadResp.mk 500 false (some msgHeadFail) none none) ∧
    (∀ r : Fetched, rok r.status = false ∨ falsyOpt r.contentType = true →
      headHandler url (some r) none = HeadResp.mk 500 false (some msgHeadFail) none none) ∧
    resolveRednote url none = ResolveResp.mk 500 false (some msgResolveFail) none none none [] ∧
    ogHandler url none = OgResp.mk 200 false (some msgOgFail) none none := by
  refine ⟨fun f2 => ?_, fun r h2 => ?_, ?_, ?_⟩
  · simp [headHandler, hu]
  · simp only [headHandler, hu]
    rw [if_neg (by simp), if_pos h2]
  · simp [resolveRednote, hu]
  · simp [ogHandler, hu]

/-- Witness for C9 at concrete failing fetches. -/
theorem c9_network_failure_witness :
    headHandler "http://x.test/w".data none none =
      HeadResp.mk 500 false (some msgHeadFail) none none ∧
    headHandler "http://x.test/w".data
        (some (Fetched.mk 404 "http://x.test/w".data none none [])) none =
      HeadResp.mk 500 false (some msgHeadFail) none none ∧
    resolveRednote "http://x.test/w".data none =
      ResolveResp.mk 500 false (some msgResolveFail) none none none [] ∧
    ogHandler "http://x.test/w".data none =
      OgResp.mk 200 false (some msgOgFail) none none := by
  obtain ⟨h1, h2, h3, h4⟩ := c9_network_failure "http://x.test/w".data (by decide)
  exact ⟨h1 none, h2 (Fetched.mk 404 "http://x.test/w".data none none []) (by decide), h3, h4⟩

/-- C10: the resolver's outcome is a function of the fetched body and
final URL only — two upstream responses differing only in HTTP status
(e.g. 200 vs 404) produce identical resolver responses — and a concrete
404 page whose body contains a `.mp4` link still resolves with ok:true. -/
theorem c10_status_never_inspected :
    (∀ (url fu body : List Char) (ct cl : Option (List Char)) (s₁ s₂ : Nat),
      resolveRednote url (some (Fetched.mk s₁ fu ct cl body)) =
        resolveRednote url (some (Fetched.mk s₂ fu ct cl body))) ∧
    (resolveRednote "http://x.test/r".data
        (some (Fetched.mk 404 "http://x.test/r".data none none
          "<p>err http://cdn.test/v.mp4 page</p>".data))).ok = true :=
  ⟨fun _ _ _ _ _ _ _ => rfl, by decide⟩

theorem toNat_ofNat_valid (n : Nat) (h : n < 55296) : (Char.ofNat n).toNat = n := by
  rw [Char.ofNat, dif_pos (Or.inl h)]
  rfl

/-- Arithmetic characterisation of the lower-casing map. -/
theorem lc_toNat (c : Char) :
    (lc c).toNat = if 65 ≤ c.toNat ∧ c.toNat ≤ 90 then c.toNat + 32 else c.toNat := by
  rw [lc]
  split
  · rename_i h
    have h1 : 65 ≤ c.toNat := h.1
    have h2 : c.toNat ≤ 90 := h.2
    rw [if_pos ⟨h1, h2⟩]
    exact toNat_ofNat_valid _ (by omega)
  · rename_i h
    rw [if_neg]
    intro hc
    exact h ⟨hc.1, hc.2⟩

/-- Lower-casing a word character never produces a path separator. -/
theorem lc_wordChar_safe (c : Char) (h : wordChar c = true) :
    ¬ lc c = '/' ∧ ¬ lc c = bslash := by
  have hw : (97 ≤ c.toNat ∧ c.toNat ≤ 122) ∨ (65 ≤ c.toNat ∧ c.toNat ≤ 90) ∨
      (48 ≤ c.toNat ∧ c.toNat ≤ 57) ∨ c.toNat = 95 := by
    simp only [wordChar, decide_eq_true_eq] at h
    rcases h with ⟨h1, h2⟩ | ⟨h1, h2⟩ | ⟨h1, h2⟩ | h1
    · exact Or.inl ⟨h1, h2⟩
    · exact Or.inr (Or.inl ⟨h1, h2⟩)
    · exact Or.inr (Or.inr (Or.inl ⟨h1, h2⟩))
    · exact Or.inr (Or.inr (Or.inr (congrArg Char.toNat h1)))
  constructor
  · intro heq
    have ht := congrArg Char.toNat heq
    rw [lc_toNat, show ('/' : Char).toNat = 47 from rfl] at ht
    rcases hw with ⟨h1, h2⟩ | ⟨h1, h2⟩ | ⟨h1, h2⟩ | h1 <;> split at ht <;> omega
  · intro heq
    have ht := congrArg Char.toNat heq
    rw [lc_toNat, show bslash.toNat = 92 from rfl] at ht
    rcases hw with ⟨h1, h2⟩ | ⟨h1, h2⟩ | ⟨h1, h2⟩ | h1 <;> split at ht <;> omega

theorem mem_takeWhile_pred {p : Char → Bool} :
    ∀ (s : List Char) (c : Char), c ∈ s.takeWhile p → p c = true
  | [], _, h => absurd h (List.not_mem_nil _)
  | d :: cs, c, h => by
    rw [List.takeWhile_cons] at h
    by_cases hd : p d = true
    · rw [if_pos hd] at h
      rcases List.mem_cons.mp h with rfl | h2
      · exact hd
      · exact mem_takeWhile_pred cs c h2
    · rw [if_neg hd] at h
      exact absurd h (List.not_mem_nil _)

theorem mem_dropWhile_mem {p : Char → Bool} :
    ∀ (s : List Char) (c : Char), c ∈ s.dropWhile p → c ∈ s
  | [], _, h => h
  | d :: cs, c, h => by
    rw [List.dropWhile_cons] at h
    by_cases hd : p d = true
    · rw [if_pos hd] at h
      exact List.mem_cons_of_mem _ (mem_dropWhile_mem cs c h)
    · rw [if_neg hd] at h
      exact h

theorem takeUtf8_subset : ∀ (budget : Nat) (s : List Char) (c : Char),
    c ∈ takeUtf8 budget s → c ∈ s
  | _, [], _, h => h
  | budget, d :: cs, c, h => by
    simp only [takeUtf8] at h
    split at h
    · rcases List.mem_cons.mp h with rfl | h2
      · exact List.mem_cons_self _ _
      · exact List.mem_cons_of_mem _ (takeUtf8_subset _ cs c h2)
    · exact absurd h (List.not_mem_nil _)

theorem dropTrailing_subset (s : List Char) (c : Char)
    (h : c ∈ dropTrailingDotsSpaces s) : c ∈ s := by
  rw [dropTrailingDotsSpaces, List.mem_reverse] at h
  exact List.mem_reverse.mp (mem_dropWhile_mem s.reverse c h)

/-- Whatever survives sanitization was never one of the illegal filename
characters (in particular, not a path separator). -/
theorem sanitize_chars (s : List Char) (c : Char) (h : c ∈ sanitizeFilename s) :
    illegalFileChar c = false := by
  simp only [sanitizeFilename] at h
  have h5 := dropTrailing_subset _ _ (takeUtf8_subset _ _ _ h)
  split at h5
  · exact absurd h5 (List.not_mem_nil _)
  · split at h5
    · exact absurd h5 (List.not_mem_nil _)
    · have h2 := (List.mem_filter.mp h5).1
      have h1 := (List.mem_filter.mp h2).2
      simpa using h1

/-- The sanitized name has no slash and no backslash. -/
theorem sanitize_no_sep (s : List Char) :
    ¬ '/' ∈ sanitizeFilename s ∧ ¬ bslash ∈ sanitizeFilename s := by
  constructor
  · intro h
    have hc := sanitize_chars s '/' h
    rw [show illegalFileChar '/' = true from by decide] at hc
    exact Bool.noConfusion hc
  · intro h
    have hc := sanitize_chars s bslash h
    rw [show illegalFileChar bslash = true from by decide] at hc
    exact Bool.noConfusion hc

theorem slashWordAux_wordChar : ∀ (fuel : Nat) (s w : List Char),
    slashWordAux fuel s = some w → ∀ c ∈ w, wordChar c = true
  | 0, s, w, h => by simp [slashWordAux] at h
  | fuel + 1, s, w, h => by
    simp only [slashWordAux] at h
    match s with
    | [] => exact absurd h (by simp)
    | d :: cs =>
      revert h
      dsimp only
      split
      · split
        · exact fun h => slashWordAux_wordChar fuel cs w h
        · intro h
          simp only [Option.some.injEq] at h
          subst h
          exact fun c hc => mem_takeWhile_pred cs c hc
      · exact fun h => slashWordAux_wordChar fuel cs w h

theorem slashWord_wordChar (s w : List Char) (h : slashWord s = some w) :
    ∀ c ∈ w, wordChar c = true :=
  slashWordAux_wordChar s.length s w h

/-- The derived extension has no slash and no backslash. -/
theorem extChoice_no_sep (ct url : List Char) :
    ¬ '/' ∈ extChoice ct url ∧ ¬ bslash ∈ extChoice ct url := by
  cases hsw : slashWord ct with
  | some w =>
    have hall := slashWord_wordChar ct w hsw
    rw [extChoice]
    simp only [hsw]
    constructor
    · intro h
      obtain ⟨c, hc, he⟩ := List.mem_map.mp h
      exact (lc_wordChar_safe c (hall c hc)).1 he
    · intro h
      obtain ⟨c, hc, he⟩ := List.mem_map.mp h
      exact (lc_wordChar_safe c (hall c hc)).2 he
  | none =>
    rw [extChoice]
    simp only [hsw]
    by_cases hc : containsChars ".m3u8".data url = true
    · rw [if_pos hc]
      exact ⟨by decide, by decide⟩
    · rw [if_neg hc]
      exact ⟨by decide, by decide⟩

/-- C6 is false as stated: a desiredFilename of `..` is non-empty, so the
fixed fallback name is not substituted; sanitization then yields the empty
string and the Content-Disposition base name is empty — no fixed
placeholder name replaces the empty sanitization result. -/
theorem c6_counterexample :
    sanitizeFilename "..".data = [] ∧
    downloadHandler "http://x.test/v".data "..".data []
        (some (Fetched.mk 200 "http://x.test/v".data (some "video/mp4".data) none [])) =
      DlResp.mk 200 DlBody.stream (some "video/mp4".data)
        (some (dispoHeader [] "mp4".data)) :=
  ⟨by decide, by decide⟩

/-- C6 (amended): the Content-Disposition filename is
`<sanitized>.<ext>` where `<sanitized>` is the sanitization of the
desiredFilename, with the fixed fallback name `download` substituted before
sanitization when the desiredFilename is empty or missing; base name and
extension contain no path separator characters — in particular
`../../etc/passwd` sanitizes to the separator-free `....etcpasswd`.  An
empty sanitization result is kept as an empty base name, not replaced. -/
theorem c6_sanitized_disposition (url filename referer : List Char) (r : Fetched)
    (hu : isHttpUrl url = true) (hr : rok r.status = true) :
    (downloadHandler url filename referer (some r)).disposition =
      some (dispoHeader (sanitizeFilename (effectiveName filename))
        (extChoice (orNonempty (strD r.contentType) "application/octet-stream".data) url)) ∧
    (¬ '/' ∈ sanitizeFilename (effectiveName filename) ∧
      ¬ bslash ∈ sanitizeFilename (effectiveName filename)) ∧
    (∀ ct, ¬ '/' ∈ extChoice ct url ∧ ¬ bslash ∈ extChoice ct url) ∧
    sanitizeFilename "../../etc/passwd".data = "....etcpasswd".data := by
  refine ⟨?_, sanitize_no_sep _, fun ct => extChoice_no_sep ct url, by decide⟩
  simp [downloadHandler, hu, hr]

/-- Witness for C6 at the claim's own example input. -/
theorem c6_sanitized_disposition_witness :
    (downloadHandler "http://x.test/f".data "../../etc/passwd".data []
        (some (Fetched.mk 200 "http://x.test/f".data (some "video/mp4".data) none []))).disposition =
      some (dispoHeader (sanitizeFilename (effectiveName "../../etc/passwd".data))
        (extChoice (orNonempty (strD (some "video/mp4".data)) "application/octet-stream".data)
          "http://x.test/f".data)) ∧
    (¬ '/' ∈ sanitizeFilename (effectiveName "../../etc/passwd".data) ∧
      ¬ bslash ∈ sanitizeFilename (effectiveName "../../etc/passwd".data)) ∧
    (∀ ct, ¬ '/' ∈ extChoice ct "http://x.test/f".data ∧
      ¬ bslash ∈ extChoice ct "http://x.test/f".data) ∧
    sanitizeFilename "../../etc/passwd".data = "....etcpasswd".data :=
  c6_sanitized_disposition "http://x.test/f".data "../../etc/passwd".data []
    (Fetched.mk 200 "http://x.test/f".data (some "video/mp4".data) none [])
    (by decide) (by decide)

/-- C7 is false as stated: the m3u8 fallback fires whenever the URL merely
CONTAINS `.m3u8` (here the URL ends in a query string instead), and a
missing content-type header is first defaulted to
`application/octet-stream`, giving extension `octet` instead of the
claimed fallback. -/
theorem c7_counterexample :
    (downloadHandler "http://h.test/a.m3u8?x=1".data "v".data []
        (some (Fetched.mk 200 "http://h.test/a.m3u8?x=1".data (some "binary".data) none []))).disposition =
      some (dispoHeader (sanitizeFilename "v".data) "m3u8".data) ∧
    endsWithChars ".m3u8".data "http://h.test/a.m3u8?x=1".data = false ∧
    (downloadHandler "http://p.test/v".data "v".data []
        (some (Fetched.mk 200 "http://p.test/v".data none none []))).disposition =
      some (dispoHeader (sanitizeFilename "v".data) "octet".data) :=
  ⟨by decide, by decide, by decide⟩

/-- C7 (amended): on a successful download the emitted extension follows
`specExtension`: the lower-cased first word run after a `/` of the
effective content type (declared, or application/octet-stream when the
header is missing or empty); if no such run exists, `m3u8` when the source
URL contains `.m3u8` anywhere, else `bin`. -/
theorem c7_extension_rule (url filename referer : List Char) (r : Fetched)
    (hu : isHttpUrl url = true) (hr : rok r.status = true) :
    downloadHandler url filename referer (some r) =
      DlResp.mk 200 DlBody.stream
        (some (orNonempty (strD r.contentType) "application/octet-stream".data))
        (some (dispoHeader (sanitizeFilename (effectiveName filename))
          (specExtension r.contentType url))) := by
  have hext : extChoice (orNonempty (strD r.contentType) "application/octet-stream".data) url =
      specExtension r.contentType url := by
    cases hsw : slashWord (orNonempty (strD r.contentType) "application/octet-stream".data) with
    | some w =>
      rw [extChoice, specExtension]
      simp only [hsw]
    | none =>
      rw [extChoice, specExtension]
      simp only [hsw]
      by_cases hc : containsChars ".m3u8".data url = true
      · rw [if_pos hc]
        decide
      · rw [if_neg hc]
        decide
  simp [downloadHandler, hu, hr, hext]

/-- Witness for C7 at a concrete successful download. -/
theorem c7_extension_rule_witness :
    downloadHandler "http://q.test/v".data "clip".data []
        (some (Fetched.mk 200 "http://q.test/v".data (some "video/MP4".data) none [])) =
      DlResp.mk 200 DlBody.stream
        (some (orNonempty (strD (some "video/MP4".data)) "application/octet-stream".data))
        (some (dispoHeader (sanitizeFilename (effectiveName "clip".data))
          (specExtension (some "video/MP4".data) "http://q.test/v".data))) :=
  c7_extension_rule "http://q.test/v".data "clip".data []
    (Fetched.mk 200 "http://q.test/v".data (some "video/MP4".data) none [])
    (by decide) (by decide)

end Rednote

/-- End-to-end example from the specification: title, cover and a single
media candidate are extracted together from one page. -/
theorem rednote_end_to_end_example :
    Rednote.resolveRednote "http://e.test/page".data
      (some (Rednote.Fetched.mk 200 "http://e.test/page".data none none
        ("<html><head><title>Cat</title><meta property=\"og:image\" content=\"https://x.test/c.jpg\">" ++
         "</head><body>https://x.test/v.mp4</body></html>").data)) =
      Rednote.ResolveResp.mk 200 true none (some "http://e.test/page".data) (some "Cat".data)
        (some "https://x.test/c.jpg".data)
        [Rednote.MediaCandidate.mk "https://x.test/v.mp4".data "video/mp4".data] := by decide

/-- Validator behaviour on representative inputs. -/
theorem rednote_isHttpUrl_examples :
    Rednote.isHttpUrl "https://cdn.example.com/v.mp4?x=1".data = true ∧
    Rednote.isHttpUrl "ftp://x.test/p".data = false ∧
    Rednote.isHttpUrl "/relative/path.mp4".data = false :=
  ⟨by decide, by decide, by decide⟩

/-- Scan behaviour: JSON-escaped slashes are unescaped, matching is
case-insensitive, query strings are kept, and non-media links are
ignored. -/
theorem rednote_scanUrls_examples :
    Rednote.scanUrls "x https://cdn.t\\/v.mp4 b".data = ["https://cdn.t/v.mp4".data] ∧
    Rednote.scanUrls "a HTTP://A.M3U8?q=1&r=2 b".data = ["HTTP://A.M3U8?q=1&r=2".data] ∧
    Rednote.scanUrls "http://nomatch.test/x.png".data = [] :=
  ⟨by decide, by decide, by decide⟩

/-- Sanitizer behaviour on a reserved device name. -/
theorem rednote_sanitize_reserved_example : Rednote.sanitizeFilename "con".data = [] := by
  decide
